import Mathlib

/-!
Shallow embedding of `testutil/network/network.go` (package `network` of the
chihuahua repository): the genesis-account injection and network-configuration
assembly logic.  External collaborators (cosmos-sdk codec, keyring, tendermint
random source, network harness) are modelled at their interface as the spec
describes them: the codec round-trips, the keyring is a lookup from name to a
derived identity, and the random source is a stream of 63-bit words.
-/

namespace Chihuahua

/-- A single coin: a denomination string and an integer amount
(`sdk.Coin`; the amount is an arbitrary-precision integer in the SDK). -/
structure Coin where
  denom : String
  amount : Int
deriving DecidableEq

/-- Denomination characters allowed after the leading letter by the SDK
validation pattern `[a-zA-Z][a-zA-Z0-9/:._-]{2,127}`. -/
def isDenomChar (c : Char) : Bool :=
  c.isAlphanum || c = '/' || c = ':' || c = '.' || c = '_' || c = '-'

/-- `sdk.ValidateDenom`: the denomination must match
`[a-zA-Z][a-zA-Z0-9/:._-]{2,127}`. -/
def validDenom (s : String) : Bool :=
  match s.data with
  | [] => false
  | c :: rest => c.isAlpha && rest.all isDenomChar && 3 ≤ s.length && s.length ≤ 128

/-- `sdk.NewCoin`: validates the coin (valid denomination, non-negative
amount); a validation failure is a Go panic, modelled as `none`. -/
def newCoin (denom : String) (amount : Int) : Option Coin :=
  if validDenom denom && 0 ≤ amount then some ⟨denom, amount⟩ else none

/-- Lexicographic strict comparison of character lists, the order Go uses
on strings (byte-wise; identical on the ASCII denominations involved). -/
def charListLt : List Char → List Char → Bool
  | [], [] => false
  | [], _ :: _ => true
  | _ :: _, [] => false
  | a :: as, b :: bs => if a < b then true else if b < a then false else charListLt as bs

/-- The Go `<` on denomination strings. -/
def denomLt (a b : String) : Bool := charListLt a.data b.data

/-- Insert a coin into a list sorted by denomination (ascending). -/
def insertCoin (c : Coin) : List Coin → List Coin
  | [] => [c]
  | d :: ds => if denomLt c.denom d.denom then c :: d :: ds else d :: insertCoin c ds

/-- `Coins.Sort`: sort a coin list by denomination string (ascending). -/
def sortCoins (cs : List Coin) : List Coin := cs.foldr insertCoin []

/-- Denominations strictly increasing (sorted and duplicate-free), as
`Coins.Validate` requires. -/
def sortedStrict : List Coin → Bool
  | [] => true
  | [_] => true
  | a :: b :: rest => denomLt a.denom b.denom && sortedStrict (b :: rest)

/-- `Coins.Validate`: every denomination valid, every amount positive,
denominations strictly increasing. -/
def coinsValidate (cs : List Coin) : Bool :=
  cs.all (fun c => validDenom c.denom && decide (0 < c.amount)) && sortedStrict cs

/-- `sdk.NewCoins`: drop zero coins, sort by denomination, then validate;
a validation failure is a Go panic, modelled as `none`. -/
def newCoins (cs : List Coin) : Option (List Coin) :=
  let cleaned := sortCoins (cs.filter (fun c => c.amount ≠ 0))
  if coinsValidate cleaned then some cleaned else none

/-- A public key as the genesis packing sees it: the key algorithm name
plus opaque key bytes. -/
structure PubKey where
  alg : String
  bytes : List Nat
deriving DecidableEq

/-- A keyring identity: the bech32 address string and the public key
(`info.GetAddress()`, `info.GetPubKey()`). -/
structure Identity where
  address : String
  pubKey : PubKey
deriving DecidableEq

/-- The in-memory keyring capability: `NewMnemonic`/`NewAccount` derive the
identity stored under a name; a key-derivation failure is a Go panic,
modelled as `none`. -/
abbrev Keyring := String → Option Identity

/-- `authtypes.BaseAccount` as built by `NewBaseAccount(addr, pub, accNum, seq)`. -/
structure BaseAccount where
  address : String
  pubKey : PubKey
  accountNumber : Nat
  sequence : Nat
deriving DecidableEq

/-- An account packed into the genesis wire format
(`codectypes.Any`, produced by `authtypes.PackAccounts`). -/
structure PackedAccount where
  value : BaseAccount
deriving DecidableEq

/-- `banktypes.Balance`: an address and its coins. -/
structure Balance where
  address : String
  coins : List Coin
deriving DecidableEq

/-- `authtypes.GenesisState`: module parameters (opaque) and the packed
account list. -/
structure AuthGenesisState where
  params : List Nat
  accounts : List PackedAccount
deriving DecidableEq

/-- `banktypes.GenesisState`: module parameters, the balance list, and the
remaining fields (supply, denom metadata), opaque to the merge. -/
structure BankGenesisState where
  params : List Nat
  balances : List Balance
  supply : List Coin
  denomMetadata : List String
deriving DecidableEq

/-- A serialized module genesis section.  The codec round-trips, so a
well-formed auth (resp. bank) section is the image of a structured value;
`raw` stands for any other byte string (other modules, or malformed data
for the targeted modules). -/
inductive Blob where
  | auth (s : AuthGenesisState)
  | bank (s : BankGenesisState)
  | raw (bytes : List Nat)
deriving DecidableEq

/-- `map[string]json.RawMessage`: the genesis state maps a module name to
its serialized section; a missing key reads as `none`. -/
abbrev GenesisState := String → Option Blob

/-- Go map update on the genesis state. -/
def setGS (gs : GenesisState) (key : String) (v : Blob) : GenesisState :=
  fun k => if k = key then some v else gs k

/-- `authtypes.ModuleName`. -/
def authModuleName : String := "auth"

/-- `banktypes.ModuleName`. -/
def bankModuleName : String := "bank"

/-- `Codec.MustUnmarshalJSON` into `authtypes.GenesisState`: succeeds
exactly on a well-formed auth section (a panic otherwise, modelled by
`none`). -/
def decodeAuth : Option Blob → Option AuthGenesisState
  | some (Blob.auth s) => some s
  | _ => none

/-- `Codec.MustUnmarshalJSON` into `banktypes.GenesisState`: succeeds
exactly on a well-formed bank section (a panic otherwise, modelled by
`none`). -/
def decodeBank : Option Blob → Option BankGenesisState
  | some (Blob.bank s) => some s
  | _ => none

/-- The interface registry of the encoding configuration, seen through the
packing step: the set of key algorithm names it can pack. -/
abbrev Registry := List String

/-- Pack one account into the genesis wire format: fails when the public
key type is not supported by the interface registry. -/
def packAccount (reg : Registry) (a : BaseAccount) : Option PackedAccount :=
  if a.pubKey.alg ∈ reg then some ⟨a⟩ else none

/-- `authtypes.PackAccounts`: pack every account in order, failing (with an
ordinary returned error) on the first unsupported one. -/
def packAccounts (reg : Registry) : List BaseAccount → Option (List PackedAccount)
  | [] => some []
  | a :: rest =>
    match packAccount reg a, packAccounts reg rest with
    | some p, some ps => some (p :: ps)
    | _, _ => none

/-- `network.Config`, restricted to the fields the embedded code reads or
writes.  The codec and the app constructor are external capabilities and
are passed separately where needed. -/
structure Config where
  genesisState : GenesisState
  chainID : String
  numValidators : Nat
  timeoutCommit : Nat
  bondDenom : String
  minGasPrices : String
  accountTokens : Int
  stakingTokens : Int
  bondedTokens : Int
  pruningStrategy : String
  cleanupDir : Bool
  signingAlgo : String

/-- The error value `authtypes.PackAccounts` can return. -/
inductive GenError where
  | accountPackError
deriving DecidableEq

/-- Outcome of `addGenAccounts`: a returned `(config, nil)`, a returned
`(config, err)` (the config travels back with the error, as in Go), or a
Go panic raised by `MustUnmarshalJSON` on a malformed targeted section. -/
inductive MergeOutcome where
  | ok (cfg : Config)
  | errReturn (cfg : Config) (e : GenError)
  | fatalDecode (moduleName : String)

/-- `addGenAccounts(cfg, genAccounts, genBalances)`: decode the auth
section, pack the new accounts, append them, re-encode; then decode the
bank section, append the new balances, re-encode. -/
def addGenAccounts (reg : Registry) (cfg : Config)
    (genAccounts : List BaseAccount) (genBalances : List Balance) : MergeOutcome :=
  match decodeAuth (cfg.genesisState authModuleName) with
  | none => MergeOutcome.fatalDecode authModuleName
  | some authGenState =>
    match packAccounts reg genAccounts with
    | none => MergeOutcome.errReturn cfg GenError.accountPackError
    | some accounts =>
      let authGenState2 := { authGenState with accounts := authGenState.accounts ++ accounts }
      let cfg1 := { cfg with genesisState := setGS cfg.genesisState authModuleName (Blob.auth authGenState2) }
      match decodeBank (cfg1.genesisState bankModuleName) with
      | none => MergeOutcome.fatalDecode bankModuleName
      | some bankGenState =>
        let bankGenState2 := { bankGenState with balances := bankGenState.balances ++ genBalances }
        MergeOutcome.ok { cfg1 with genesisState := setGS cfg1.genesisState bankModuleName (Blob.bank bankGenState2) }

/-- The shape of the configuration a successful merge returns: the base
configuration with the auth section replaced by `A` and the bank section
replaced by `B`. -/
def mergedConfig (cfg : Config) (A : AuthGenesisState) (B : BankGenesisState) : Config :=
  { cfg with genesisState := setGS (setGS cfg.genesisState authModuleName (Blob.auth A)) bankModuleName (Blob.bank B) }

/-- `sdk.DefaultBondDenom`. -/
def stakeDenom : String := "stake"

/-- `newGenAccout(kr, name, amount)`: derive the identity for `name` from
the keyring (two keyring calls in the source, `NewMnemonic` then
`NewAccount` re-importing the same mnemonic under the same name; both
panic on failure, so they are modelled by one fallible lookup), build the
two coins, sort them, and return the genesis account (numbers 0, 0) with
its balance. -/
def newGenAccout (kr : Keyring) (name : String) (amount : Int) :
    Option (BaseAccount × Balance) :=
  match kr name with
  | none => none
  | some info =>
    match newCoin (name ++ "token") amount, newCoin stakeDenom amount with
    | some c1, some c2 =>
      match newCoins [c1, c2] with
      | none => none
      | some balances =>
        some (⟨info.address, info.pubKey, 0, 0⟩, ⟨info.address, sortCoins balances⟩)
    | _, _ => none

/-- The fixed per-account funding amount hard-coded in `New`. -/
def fundingAmount : Int := 1000000000000

/-- The loop of `New` over `genAccNames`: one `(genesis account, balance)`
pair per requested name, each funded with the fixed `fundingAmount`.  A
keyring failure inside `newGenAccout` is a Go panic, modelled by `none`. -/
def buildGenAccounts (kr : Keyring) : List String → Option (List (BaseAccount × Balance))
  | [] => some []
  | name :: rest =>
    match newGenAccout kr name fundingAmount, buildGenAccounts kr rest with
    | some p, some ps => some (p :: ps)
    | _, _ => none

/-- `New(t, config, genAccNames...)`: build one genesis account and balance
per requested name (funded with the fixed `fundingAmount`), merge them into
the configuration, and hand the result to the harness.  Any keyring failure
and any `addGenAccounts` error or decode panic aborts `New` (the source
does `panic(err)` on a returned error): all of these are modelled by
`none`.  The returned configuration is the one given to the harness. -/
def New (reg : Registry) (kr : Keyring) (cfg : Config) (genAccNames : List String) :
    Option Config :=
  match buildGenAccounts kr genAccNames with
  | none => none
  | some pairs =>
    match addGenAccounts reg cfg (pairs.map Prod.fst) (pairs.map Prod.snd) with
    | MergeOutcome.ok cfg2 => some cfg2
    | MergeOutcome.errReturn _ _ => none
    | MergeOutcome.fatalDecode _ => none

/-- One nanosecond-denominated second (`time.Second`). -/
def second : Nat := 1000000000

/-- `sdk.DefaultPowerReduction`. -/
def powerReduction : Int := 1000000

/-- `sdk.TokensFromConsensusPower(power, sdk.DefaultPowerReduction)`. -/
def tokensFromConsensusPower (power : Int) : Int := power * powerReduction

/-- The character set of `tmrand.Str`:
`strChars = "0123456789abcdefghijklmnopqrstuvwxyz"`. -/
def strChars : List Char := "0123456789abcdefghijklmnopqrstuvwxyz".data

/-- The ten 6-bit chunks `tmrand.Str` extracts from one `Int63()` word
(rightmost first, shifting right by 6 each time). -/
def int63Chunks (val : Nat) : List Nat :=
  (List.range 10).map (fun i => val / 64 ^ i % 64)

/-- `tmrand.Str(length)` over a stream of `Int63()` words: keep each 6-bit
chunk whose value indexes into `strChars` (is below 36), reject the rest,
and stop after `length` accepted characters.  When the stream never yields
enough accepted chunks the source loops forever; that is modelled by
`none` on a finite word list that is too short. -/
def tmrandStr (length : Nat) (words : List Nat) : Option String :=
  let valid := ((words.map int63Chunks).flatten.filter (fun v => v < 36)).map
    (fun v => strChars.getD v ' ')
  if length ≤ valid.length then some (String.mk (valid.take length)) else none

/-- The genesis state produced by `app.ModuleBasics.DefaultGenesis`: the
auth and bank sections carry empty account and balance lists with default
parameters; the sections of all other registered modules are external and
appear through `rest`. -/
def defaultGenesisState (rest : GenesisState) : GenesisState :=
  fun k =>
    if k = authModuleName then some (Blob.auth ⟨[], []⟩)
    else if k = bankModuleName then some (Blob.bank ⟨[], [], [], []⟩)
    else rest k

/-- `DefaultConfig()`: the default network configuration.  `words` feeds
the tendermint random source used for the chain ID suffix; `rest` supplies
the genesis sections of the modules other than auth and bank. -/
def DefaultConfig (words : List Nat) (rest : GenesisState) : Option Config :=
  match tmrandStr 6 words with
  | none => none
  | some suffix => some {
      genesisState := defaultGenesisState rest
      chainID := "chain-" ++ suffix
      numValidators := 1
      timeoutCommit := 2 * second
      bondDenom := stakeDenom
      minGasPrices := "0.000006" ++ stakeDenom
      accountTokens := tokensFromConsensusPower 1000
      stakingTokens := tokensFromConsensusPower 500
      bondedTokens := tokensFromConsensusPower 100
      pruningStrategy := "nothing"
      cleanupDir := true
      signingAlgo := "secp256k1" }

/-! ### Concrete fixtures used to instantiate the theorems -/

/-- A keyring deriving a secp256k1 identity for every name. -/
def krA : Keyring := fun n => some ⟨"addr-" ++ n, ⟨"secp256k1", [1]⟩⟩

/-- A keyring deriving an identity whose key algorithm the registry does
not support. -/
def krBad : Keyring := fun n => some ⟨"addr-" ++ n, ⟨"badalg", []⟩⟩

/-- A registry supporting only secp256k1 keys. -/
def regSecp : Registry := ["secp256k1"]

def accAlice : BaseAccount := ⟨"addr-alice", ⟨"secp256k1", [1]⟩, 0, 0⟩

def accAliceBad : BaseAccount := ⟨"addr-alice", ⟨"badalg", []⟩, 0, 0⟩

def balAlice : Balance :=
  ⟨"addr-alice", [⟨"alicetoken", fundingAmount⟩, ⟨"stake", fundingAmount⟩]⟩

def accA5 : BaseAccount := ⟨"addr-alice", ⟨"secp256k1", [1]⟩, 0, 0⟩

def balA5 : Balance := ⟨"addr-alice", [⟨"alicetoken", 5⟩, ⟨"stake", 5⟩]⟩

/-- A non-trivial base auth section: one pre-existing packed account. -/
def authBase : AuthGenesisState := ⟨[3], [⟨⟨"addr0", ⟨"secp256k1", [0]⟩, 7, 1⟩⟩]⟩

/-- A non-trivial base bank section: one pre-existing balance. -/
def bankBase : BankGenesisState := ⟨[4], [⟨"addr0", [⟨"stake", 1⟩]⟩], [], []⟩

/-- A base genesis state with well-formed auth and bank sections and one
additional untargeted module entry. -/
def gsBase : GenesisState := fun k =>
  if k = authModuleName then some (Blob.auth authBase)
  else if k = bankModuleName then some (Blob.bank bankBase)
  else if k = "gov" then some (Blob.raw [7])
  else none

def cfgBase : Config :=
  ⟨gsBase, "chain-ab12cd", 1, 2 * second, stakeDenom, "0.000006stake",
    tokensFromConsensusPower 1000, tokensFromConsensusPower 500,
    tokensFromConsensusPower 100, "nothing", true, "secp256k1"⟩

/-- A genesis state whose bank section is malformed. -/
def gsBadBank : GenesisState := fun k =>
  if k = authModuleName then some (Blob.auth authBase)
  else if k = bankModuleName then some (Blob.raw [])
  else none

def cfgBadBank : Config :=
  ⟨gsBadBank, "chain-ab12cd", 1, 2 * second, stakeDenom, "0.000006stake",
    tokensFromConsensusPower 1000, tokensFromConsensusPower 500,
    tokensFromConsensusPower 100, "nothing", true, "secp256k1"⟩

/-- The configuration the merge produces from `cfgBase` when appending
alice's account and balance. -/
def cfgMergedW : Config :=
  mergedConfig cfgBase { authBase with accounts := authBase.accounts ++ [⟨accAlice⟩] }
    { bankBase with balances := bankBase.balances ++ [balAlice] }

def restNone : GenesisState := fun _ => none

/-- The configuration `DefaultConfig` produces from the all-zero random
word stream. -/
def cfgD : Config :=
  ⟨defaultGenesisState restNone, "chain-000000", 1, 2 * second, stakeDenom,
    "0.000006stake", tokensFromConsensusPower 1000, tokensFromConsensusPower 500,
    tokensFromConsensusPower 100, "nothing", true, "secp256k1"⟩

/-! ### Basic lemmas about the embedded operations -/

theorem setGS_same (gs : GenesisState) (key : String) (v : Blob) :
    setGS gs key v key = some v := by
  simp [setGS]

theorem setGS_other (gs : GenesisState) (key : String) (v : Blob) (k : String)
    (h : k ≠ key) : setGS gs key v k = gs k := by
  simp [setGS, h]

theorem auth_ne_bank : authModuleName ≠ bankModuleName := by decide

/-- No name-scoped denomination collides with the bonding denomination:
the characters of `name ++ "token"` always differ from those of `"stake"`. -/
theorem nametoken_data_ne_stake (name : String) :
    (name ++ "token").data ≠ stakeDenom.data := by
  obtain ⟨l⟩ := name
  intro h
  have hd : l ++ ['t', 'o', 'k', 'e', 'n'] = ['s', 't', 'a', 'k', 'e'] := h
  have hlen := congrArg List.length hd
  simp [List.length_append] at hlen
  subst hlen
  exact absurd hd (by decide)

/-- Totality of the lexicographic comparison: two distinct character lists
compare strictly in one direction or the other. -/
theorem charListLt_cases (as bs : List Char) (hne : as ≠ bs)
    (hf : charListLt as bs = false) : charListLt bs as = true := by
  induction as generalizing bs with
  | nil =>
    cases bs with
    | nil => exact absurd rfl hne
    | cons b bs => exact absurd hf (by simp [charListLt])
  | cons a as ih =>
    cases bs with
    | nil => rfl
    | cons b bs =>
      unfold charListLt at hf ⊢
      by_cases hab : a < b
      · rw [if_pos hab] at hf
        exact absurd hf (by simp)
      · rw [if_neg hab] at hf
        by_cases hba : b < a
        · rw [if_pos hba]
        · rw [if_neg hba] at hf
          rw [if_neg hba, if_neg hab]
          have hch : a = b := le_antisymm (not_lt.mp hba) (not_lt.mp hab)
          subst hch
          exact ih bs (fun hx => hne (by rw [hx])) hf

theorem packAccounts_some (reg : Registry) (accs : List BaseAccount)
    (packed : List PackedAccount) (h : packAccounts reg accs = some packed) :
    packed = accs.map PackedAccount.mk := by
  induction accs generalizing packed with
  | nil => simp [packAccounts] at h; simp [h]
  | cons a rest ih =>
    unfold packAccounts at h
    split at h
    · next p ps hp hps =>
      unfold packAccount at hp
      split at hp
      · cases hp
        cases h
        simp [ih ps hps]
      · exact absurd hp (by simp)
    · exact absurd h (by simp)

theorem packAccounts_all_supported (reg : Registry) (accs : List BaseAccount)
    (h : ∀ a ∈ accs, a.pubKey.alg ∈ reg) :
    packAccounts reg accs = some (accs.map PackedAccount.mk) := by
  induction accs with
  | nil => simp [packAccounts]
  | cons a rest ih =>
    have ha : a.pubKey.alg ∈ reg := h a (by simp)
    have hrest := ih (fun x hx => h x (by simp [hx]))
    simp [packAccounts, packAccount, ha, hrest]

theorem validDenom_stake : validDenom stakeDenom = true := by decide

/-- Characterization of a successful `newGenAccout` call with a positive
amount: the account carries the derived address and public key with both
counters zero, and the balance holds exactly the name-scoped coin and the
bonding coin, in denomination order. -/
theorem newGenAccout_inv (kr : Keyring) (name : String) (amount : Int)
    (acc : BaseAccount) (bal : Balance)
    (hpos : 0 < amount)
    (h : newGenAccout kr name amount = some (acc, bal)) :
    ∃ info, kr name = some info ∧
      acc = ⟨info.address, info.pubKey, 0, 0⟩ ∧
      bal = ⟨info.address,
        if denomLt (name ++ "token") stakeDenom
        then [⟨name ++ "token", amount⟩, ⟨stakeDenom, amount⟩]
        else [⟨stakeDenom, amount⟩, ⟨name ++ "token", amount⟩]⟩ := by
  have hne0 : amount ≠ 0 := ne_of_gt hpos
  have hc2 : newCoin stakeDenom amount = some ⟨stakeDenom, amount⟩ := by
    unfold newCoin; simp [validDenom_stake, hpos.le]
  unfold newGenAccout at h
  split at h
  · exact absurd h (by simp)
  next info hkr =>
    refine ⟨info, hkr, ?_⟩
    by_cases hv : validDenom (name ++ "token") = true
    · have hc1 : newCoin (name ++ "token") amount = some ⟨name ++ "token", amount⟩ := by
        unfold newCoin; simp [hv, hpos.le]
      rw [hc1, hc2] at h
      simp only [] at h
      cases hlt : denomLt (name ++ "token") stakeDenom with
      | true =>
        have hb : newCoins [⟨name ++ "token", amount⟩, ⟨stakeDenom, amount⟩] =
            some [⟨name ++ "token", amount⟩, ⟨stakeDenom, amount⟩] := by
          unfold newCoins
          simp [hne0, sortCoins, insertCoin, hlt, coinsValidate, sortedStrict, hv,
            validDenom_stake, hpos]
        rw [hb] at h
        simp only [] at h
        have hsort : sortCoins [⟨name ++ "token", amount⟩, ⟨stakeDenom, amount⟩] =
            [Coin.mk (name ++ "token") amount, Coin.mk stakeDenom amount] := by
          simp [sortCoins, insertCoin, hlt]
        rw [hsort] at h
        cases h
        simp [hlt]
      | false =>
        have hgt : denomLt stakeDenom (name ++ "token") = true :=
          charListLt_cases _ _ (nametoken_data_ne_stake name) hlt
        have hb : newCoins [⟨name ++ "token", amount⟩, ⟨stakeDenom, amount⟩] =
            some [⟨stakeDenom, amount⟩, ⟨name ++ "token", amount⟩] := by
          unfold newCoins
          simp [hne0, sortCoins, insertCoin, hlt, coinsValidate, sortedStrict, hv,
            validDenom_stake, hpos, hgt]
        rw [hb] at h
        simp only [] at h
        have hsort : sortCoins [⟨stakeDenom, amount⟩, ⟨name ++ "token", amount⟩] =
            [Coin.mk stakeDenom amount, Coin.mk (name ++ "token") amount] := by
          simp [sortCoins, insertCoin, hlt, hgt]
        rw [hsort] at h
        cases h
        simp [hlt]
    · have hc1 : newCoin (name ++ "token") amount = none := by
        unfold newCoin; simp [hv]
      rw [hc1, hc2] at h
      simp at h

theorem mergedConfig_auth (cfg : Config) (A : AuthGenesisState) (B : BankGenesisState) :
    decodeAuth ((mergedConfig cfg A B).genesisState authModuleName) = some A := by
  show decodeAuth (setGS (setGS cfg.genesisState authModuleName (Blob.auth A)) bankModuleName
    (Blob.bank B) authModuleName) = some A
  rw [setGS_other _ _ _ _ (by decide), setGS_same]
  rfl

theorem mergedConfig_bank (cfg : Config) (A : AuthGenesisState) (B : BankGenesisState) :
    decodeBank ((mergedConfig cfg A B).genesisState bankModuleName) = some B := by
  show decodeBank (setGS (setGS cfg.genesisState authModuleName (Blob.auth A)) bankModuleName
    (Blob.bank B) bankModuleName) = some B
  rw [setGS_same]
  rfl

theorem mergedConfig_other (cfg : Config) (A : AuthGenesisState) (B : BankGenesisState)
    (key : String) (hk1 : key ≠ authModuleName) (hk2 : key ≠ bankModuleName) :
    (mergedConfig cfg A B).genesisState key = cfg.genesisState key := by
  show setGS (setGS cfg.genesisState authModuleName (Blob.auth A)) bankModuleName
    (Blob.bank B) key = cfg.genesisState key
  rw [setGS_other _ _ _ _ hk2, setGS_other _ _ _ _ hk1]

/-- Forward computation of a successful merge: when both targeted sections
decode and packing succeeds, `addGenAccounts` returns the configuration
whose auth and bank sections carry the appended lists. -/
theorem addGenAccounts_ok_of (reg : Registry) (cfg : Config)
    (accs : List BaseAccount) (bals : List Balance)
    (A0 : AuthGenesisState) (B0 : BankGenesisState) (packed : List PackedAccount)
    (hA : decodeAuth (cfg.genesisState authModuleName) = some A0)
    (hB : decodeBank (cfg.genesisState bankModuleName) = some B0)
    (hpack : packAccounts reg accs = some packed) :
    addGenAccounts reg cfg accs bals = MergeOutcome.ok
      (mergedConfig cfg { A0 with accounts := A0.accounts ++ packed }
        { B0 with balances := B0.balances ++ bals }) := by
  have hB1 : decodeBank (setGS cfg.genesisState authModuleName
      (Blob.auth { A0 with accounts := A0.accounts ++ packed }) bankModuleName) = some B0 := by
    rw [setGS_other _ _ _ _ (by decide)]; exact hB
  unfold addGenAccounts
  rw [hA]
  simp only []
  rw [hpack]
  simp only []
  rw [hB1]
  simp only []
  rfl

/-- Inversion of a successful merge: the targeted sections of the base
configuration decoded, packing succeeded, the returned sections are the
appended ones, and every other genesis entry is untouched. -/
theorem addGenAccounts_ok_inv (reg : Registry) (cfg : Config)
    (accs : List BaseAccount) (bals : List Balance) (cfg' : Config)
    (h : addGenAccounts reg cfg accs bals = MergeOutcome.ok cfg') :
    ∃ A0 B0 packed,
      decodeAuth (cfg.genesisState authModuleName) = some A0 ∧
      decodeBank (cfg.genesisState bankModuleName) = some B0 ∧
      packAccounts reg accs = some packed ∧
      decodeAuth (cfg'.genesisState authModuleName) =
        some { A0 with accounts := A0.accounts ++ packed } ∧
      decodeBank (cfg'.genesisState bankModuleName) =
        some { B0 with balances := B0.balances ++ bals } ∧
      (∀ key, key ≠ authModuleName → key ≠ bankModuleName →
        cfg'.genesisState key = cfg.genesisState key) := by
  unfold addGenAccounts at h
  split at h
  · exact absurd h (by simp)
  next A0 hA =>
    split at h
    · exact absurd h (by simp)
    next packed hpack =>
      simp only [] at h
      split at h
      · exact absurd h (by simp)
      next B0 hB =>
        rw [setGS_other _ _ _ _ (by decide)] at hB
        cases h
        exact ⟨A0, B0, packed, hA, hB, hpack, mergedConfig_auth cfg _ _,
          mergedConfig_bank cfg _ _, fun key hk1 hk2 => mergedConfig_other cfg _ _ key hk1 hk2⟩

/-- Inversion of a merge that returns an ordinary error: the only returned
error is the pack error, it occurs exactly when packing fails (after the
auth section decoded), and the configuration travels back unmodified. -/
theorem addGenAccounts_err_inv (reg : Registry) (cfg : Config)
    (accs : List BaseAccount) (bals : List Balance) (cfg' : Config) (e : GenError)
    (h : addGenAccounts reg cfg accs bals = MergeOutcome.errReturn cfg' e) :
    cfg' = cfg ∧ e = GenError.accountPackError ∧
      packAccounts reg accs = none ∧
      decodeAuth (cfg.genesisState authModuleName) ≠ none := by
  unfold addGenAccounts at h
  split at h
  · exact absurd h (by simp)
  next A0 hA =>
    split at h
    next hpack =>
      cases h
      exact ⟨rfl, rfl, hpack, by simp [hA]⟩
    next packed hpack =>
      simp only [] at h
      split at h
      · exact absurd h (by simp)
      · exact absurd h (by simp)

/-- Every pair produced by the account-building loop of `New` comes from a
successful `newGenAccout` call on one of the requested names, with the
fixed funding amount. -/
theorem buildGenAccounts_mem (kr : Keyring) (names : List String)
    (pairs : List (BaseAccount × Balance)) (h : buildGenAccounts kr names = some pairs) :
    ∀ p ∈ pairs, ∃ n ∈ names, newGenAccout kr n fundingAmount = some p := by
  induction names generalizing pairs with
  | nil =>
    simp [buildGenAccounts] at h
    subst h
    simp
  | cons n rest ih =>
    unfold buildGenAccounts at h
    split at h
    next p ps hp hps =>
      cases h
      intro q hq
      rcases List.mem_cons.mp hq with hq | hq
      · exact ⟨n, by simp, by rw [hq]; exact hp⟩
      · obtain ⟨m, hm, hsome⟩ := ih ps hps q hq
        exact ⟨m, by simp [hm], hsome⟩
    next => exact absurd h (by simp)

/-- Every character the tendermint random-string generator can emit is a
lowercase letter or a digit. -/
theorem strChars_lower_or_digit :
    ∀ v : Nat, v < 36 → ((strChars.getD v ' ').isLower || (strChars.getD v ' ').isDigit) = true := by
  decide

/-- A produced random string has the requested length and consists only of
lowercase letters and digits. -/
theorem tmrandStr_spec (len : Nat) (words : List Nat) (s : String)
    (h : tmrandStr len words = some s) :
    s.length = len ∧ ∀ c ∈ s.data, (c.isLower || c.isDigit) = true := by
  unfold tmrandStr at h
  simp only [] at h
  split at h
  next hle =>
    cases h
    constructor
    · show (List.take len _).length = len
      rw [List.length_take]
      exact Nat.min_eq_left hle
    · intro c hc
      have hc' := List.mem_of_mem_take hc
      obtain ⟨v, hv, hcv⟩ := List.mem_map.mp hc'
      have hvlt : v < 36 := by
        have := (List.mem_filter.mp hv).2
        simpa using this
      rw [← hcv]
      exact strChars_lower_or_digit v hvlt
  next => exact absurd h (by simp)

/-! ### Claim theorems -/

/-- Claim C2: for every generated account name and positive amount, the
balance produced by `newGenAccout` contains exactly two coin entries, one
with denomination `name ++ "token"` and one with the bonding denomination
`stakeDenom`, each with value equal to the requested amount, and the coin
list is sorted (strictly) by denomination string. -/
theorem newGenAccout_balance_coins (kr : Keyring) (name : String) (amount : Int)
    (acc : BaseAccount) (bal : Balance)
    (hpos : 0 < amount)
    (h : newGenAccout kr name amount = some (acc, bal)) :
    bal.coins.length = 2 ∧
      Coin.mk (name ++ "token") amount ∈ bal.coins ∧
      Coin.mk stakeDenom amount ∈ bal.coins ∧
      sortedStrict bal.coins = true := by
  obtain ⟨info, hkr, hacc, hbal⟩ := newGenAccout_inv kr name amount acc bal hpos h
  subst hbal
  cases hlt : denomLt (name ++ "token") stakeDenom with
  | true => simp [hlt, sortedStrict]
  | false =>
    have hgt : denomLt stakeDenom (name ++ "token") = true :=
      charListLt_cases _ _ (nametoken_data_ne_stake name) hlt
    simp [hlt, sortedStrict, hgt]

/-- Witness for C2 at name `"alice"`, amount 5. -/
theorem newGenAccout_balance_coins_witness :
    balA5.coins.length = 2 ∧
      Coin.mk ("alice" ++ "token") 5 ∈ balA5.coins ∧
      Coin.mk stakeDenom 5 ∈ balA5.coins ∧
      sortedStrict balA5.coins = true :=
  newGenAccout_balance_coins krA "alice" 5 accA5 balA5 (by decide) (by decide)

/-- Claim C5: every configuration `DefaultConfig` returns has validator
count 1, pruning strategy `"nothing"`, cleanup-on-exit `true`, and commit
timeout of 2 seconds. -/
theorem defaultConfig_invariants (words : List Nat) (rest : GenesisState) (cfg : Config)
    (h : DefaultConfig words rest = some cfg) :
    cfg.numValidators = 1 ∧ cfg.pruningStrategy = "nothing" ∧
      cfg.cleanupDir = true ∧ cfg.timeoutCommit = 2 * second := by
  unfold DefaultConfig at h
  split at h
  · exact absurd h (by simp)
  next sfx hs =>
    cases h
    exact ⟨rfl, rfl, rfl, rfl⟩

/-- Witness for C5 on the all-zero random word stream. -/
theorem defaultConfig_invariants_witness :
    cfgD.numValidators = 1 ∧ cfgD.pruningStrategy = "nothing" ∧
      cfgD.cleanupDir = true ∧ cfgD.timeoutCommit = 2 * second :=
  defaultConfig_invariants [0] restNone cfgD rfl

/-- Claim C6: the chain ID `DefaultConfig` produces is the string
`"chain-"` followed by exactly 6 lowercase alphanumeric characters. -/
theorem defaultConfig_chainID_format (words : List Nat) (rest : GenesisState) (cfg : Config)
    (h : DefaultConfig words rest = some cfg) :
    ∃ sfx : String, cfg.chainID = "chain-" ++ sfx ∧ sfx.length = 6 ∧
      ∀ c ∈ sfx.data, (c.isLower || c.isDigit) = true := by
  unfold DefaultConfig at h
  split at h
  · exact absurd h (by simp)
  next sfx hs =>
    cases h
    obtain ⟨hlen, hchars⟩ := tmrandStr_spec 6 words sfx hs
    exact ⟨sfx, rfl, hlen, hchars⟩

/-- Witness for C6 on the all-zero random word stream. -/
theorem defaultConfig_chainID_format_witness :
    ∃ sfx : String, cfgD.chainID = "chain-" ++ sfx ∧ sfx.length = 6 ∧
      ∀ c ∈ sfx.data, (c.isLower || c.isDigit) = true :=
  defaultConfig_chainID_format [0] restNone cfgD rfl

/-- Claim C7: every genesis account `newGenAccout` produces has account
number 0 and sequence number 0. -/
theorem newGenAccout_zero_counters (kr : Keyring) (name : String) (amount : Int)
    (acc : BaseAccount) (bal : Balance)
    (h : newGenAccout kr name amount = some (acc, bal)) :
    acc.accountNumber = 0 ∧ acc.sequence = 0 := by
  unfold newGenAccout at h
  split at h
  · exact absurd h (by simp)
  next info hkr =>
    split at h
    next c1 c2 hc1 hc2 =>
      split at h
      · exact absurd h (by simp)
      next bs hbs =>
        cases h
        exact ⟨rfl, rfl⟩
    next => exact absurd h (by simp)

/-- Witness for C7 at name `"alice"`, amount 5. -/
theorem newGenAccout_zero_counters_witness :
    accA5.accountNumber = 0 ∧ accA5.sequence = 0 :=
  newGenAccout_zero_counters krA "alice" 5 accA5 balA5 (by decide)

/-- Claim C1: when the two targeted sections of a base configuration
decode and packing succeeds, `addGenAccounts` returns a configuration
whose auth section decodes to exactly the original entries followed by the
new packed accounts in the requested order (one per requested account),
and whose bank section decodes to the original balances followed by the
new balances. -/
theorem addGenAccounts_appends (reg : Registry) (cfg : Config) (accs : List BaseAccount)
    (bals : List Balance) (A0 : AuthGenesisState) (B0 : BankGenesisState)
    (packed : List PackedAccount)
    (hA : decodeAuth (cfg.genesisState authModuleName) = some A0)
    (hB : decodeBank (cfg.genesisState bankModuleName) = some B0)
    (hpack : packAccounts reg accs = some packed) :
    ∃ cfg', addGenAccounts reg cfg accs bals = MergeOutcome.ok cfg' ∧
      packed = accs.map PackedAccount.mk ∧
      packed.length = accs.length ∧
      decodeAuth (cfg'.genesisState authModuleName) =
        some { A0 with accounts := A0.accounts ++ packed } ∧
      decodeBank (cfg'.genesisState bankModuleName) =
        some { B0 with balances := B0.balances ++ bals } := by
  have hmap := packAccounts_some reg accs packed hpack
  exact ⟨mergedConfig cfg { A0 with accounts := A0.accounts ++ packed }
      { B0 with balances := B0.balances ++ bals },
    addGenAccounts_ok_of reg cfg accs bals A0 B0 packed hA hB hpack,
    hmap, by rw [hmap]; simp, mergedConfig_auth cfg _ _, mergedConfig_bank cfg _ _⟩

/-- Witness for C1: merging alice's account into the non-trivial base
configuration. -/
theorem addGenAccounts_appends_witness :
    ∃ cfg', addGenAccounts regSecp cfgBase [accAlice] [balAlice] = MergeOutcome.ok cfg' ∧
      [PackedAccount.mk accAlice] = [accAlice].map PackedAccount.mk ∧
      ([PackedAccount.mk accAlice] : List PackedAccount).length = [accAlice].length ∧
      decodeAuth (cfg'.genesisState authModuleName) =
        some { authBase with accounts := authBase.accounts ++ [PackedAccount.mk accAlice] } ∧
      decodeBank (cfg'.genesisState bankModuleName) =
        some { bankBase with balances := bankBase.balances ++ [balAlice] } :=
  addGenAccounts_appends regSecp cfgBase [accAlice] [balAlice] authBase bankBase
    [PackedAccount.mk accAlice] rfl rfl rfl

/-- Claim C3: a successful `addGenAccounts` reads and writes only the auth
and bank entries of the genesis-state mapping; the entry under every other
module key is unchanged in the returned configuration. -/
theorem addGenAccounts_frame (reg : Registry) (cfg : Config) (accs : List BaseAccount)
    (bals : List Balance) (cfg' : Config) (key : String)
    (h : addGenAccounts reg cfg accs bals = MergeOutcome.ok cfg')
    (hk1 : key ≠ authModuleName) (hk2 : key ≠ bankModuleName) :
    cfg'.genesisState key = cfg.genesisState key := by
  obtain ⟨A0, B0, packed, hA, hB, hp, h1, h2, hframe⟩ :=
    addGenAccounts_ok_inv reg cfg accs bals cfg' h
  exact hframe key hk1 hk2

/-- Witness for C3 at the untargeted module key `"gov"`. -/
theorem addGenAccounts_frame_witness :
    cfgMergedW.genesisState "gov" = cfgBase.genesisState "gov" :=
  addGenAccounts_frame regSecp cfgBase [accAlice] [balAlice] cfgMergedW "gov"
    rfl (by decide) (by decide)

/-- Claim C9: when `addGenAccounts` returns an ordinary error (account
packing failed), the configuration that travels back with the error has an
unchanged genesis state: the failed merge has no partial effect. -/
theorem addGenAccounts_err_no_mutation (reg : Registry) (cfg : Config)
    (accs : List BaseAccount) (bals : List Balance) (cfg' : Config) (e : GenError)
    (key : String)
    (h : addGenAccounts reg cfg accs bals = MergeOutcome.errReturn cfg' e) :
    cfg'.genesisState key = cfg.genesisState key := by
  obtain ⟨hcfg, he, hpack, hauth⟩ := addGenAccounts_err_inv reg cfg accs bals cfg' e h
  subst hcfg
  rfl

/-- Witness for C9: a packing failure (unsupported key algorithm) returns
the base configuration itself, so its auth entry is what it was. -/
theorem addGenAccounts_err_no_mutation_witness :
    cfgBase.genesisState authModuleName = cfgBase.genesisState authModuleName :=
  addGenAccounts_err_no_mutation regSecp cfgBase [accAliceBad] [balAlice]
    cfgBase GenError.accountPackError authModuleName rfl

/-- Counterexample for C8: with a malformed bank section and an account
whose key cannot be packed, the merge returns the pack error instead of
the decode panic, so "fails with GenesisDecodeError exactly when a
targeted module section is malformed" is false as a biconditional. -/
theorem fatalDecode_iff_cex :
    ¬ ((∃ m, addGenAccounts regSecp cfgBadBank [accAliceBad] [] = MergeOutcome.fatalDecode m) ↔
      (decodeAuth (cfgBadBank.genesisState authModuleName) = none ∨
        decodeBank (cfgBadBank.genesisState bankModuleName) = none)) := by
  intro hiff
  obtain ⟨m, hm⟩ := hiff.mpr (Or.inr rfl)
  rw [show addGenAccounts regSecp cfgBadBank [accAliceBad] [] =
      MergeOutcome.errReturn cfgBadBank GenError.accountPackError from rfl] at hm
  exact MergeOutcome.noConfusion hm

/-- Claim C8 (amended): `addGenAccounts` aborts with the fatal decode
panic (the modelled `GenesisDecodeError`, which aborts setup with no
retry) exactly when the auth section of the base configuration is
malformed, or when packing succeeds and the bank section is malformed; a
pack error preempts a malformed bank section. -/
theorem addGenAccounts_fatalDecode_iff (reg : Registry) (cfg : Config)
    (accs : List BaseAccount) (bals : List Balance) :
    (∃ m, addGenAccounts reg cfg accs bals = MergeOutcome.fatalDecode m) ↔
      (decodeAuth (cfg.genesisState authModuleName) = none ∨
        (packAccounts reg accs ≠ none ∧
          decodeBank (cfg.genesisState bankModuleName) = none)) := by
  constructor
  · rintro ⟨m, hm⟩
    unfold addGenAccounts at hm
    split at hm
    next hA => exact Or.inl hA
    next A0 hA =>
      split at hm
      next hp => exact absurd hm (by simp)
      next packed hp =>
        simp only [] at hm
        split at hm
        next hBk =>
          rw [setGS_other cfg.genesisState authModuleName
            (Blob.auth { A0 with accounts := A0.accounts ++ packed }) bankModuleName
            (by decide)] at hBk
          exact Or.inr ⟨by simp [hp], hBk⟩
        next B0 hBk => exact absurd hm (by simp)
  · intro hcase
    rcases hA : decodeAuth (cfg.genesisState authModuleName) with _ | A0
    · refine ⟨authModuleName, ?_⟩
      unfold addGenAccounts
      rw [hA]
    · rcases hcase with h1 | ⟨hp, hBk⟩
      · rw [hA] at h1
        exact Option.noConfusion h1
      · rcases hpe : packAccounts reg accs with _ | packed
        · exact absurd hpe hp
        · refine ⟨bankModuleName, ?_⟩
          unfold addGenAccounts
          rw [hA]
          simp only []
          rw [hpe]
          simp only []
          rw [setGS_other cfg.genesisState authModuleName
            (Blob.auth { A0 with accounts := A0.accounts ++ packed }) bankModuleName
            (by decide), hBk]

/-- Counterexample for C4: on a packing failure `addGenAccounts` does
return an ordinary error value, but `New` invoked on the same data panics
(modelled by `none`) instead of surfacing that error to its caller. -/
theorem new_packError_cex :
    addGenAccounts regSecp cfgBase [accAliceBad] [balAlice] =
      MergeOutcome.errReturn cfgBase GenError.accountPackError ∧
    New regSecp krBad cfgBase ["alice"] = none :=
  ⟨rfl, rfl⟩

/-- Claim C4 (amended): when packing a new account's public key fails,
`addGenAccounts` surfaces the failure to its caller as an ordinary
returned error value (the pack error, a different outcome from decode
corruption), and packing always succeeds once every key algorithm is
supported by the registry; but when the merge is invoked through the
launcher `New`, the returned error is escalated to a panic (modelled by
`none`) rather than returned. -/
theorem packError_return_vs_New (reg : Registry) (kr : Keyring) (cfg : Config)
    (names : List String) (pairs : List (BaseAccount × Balance)) (A0 : AuthGenesisState)
    (hbuild : buildGenAccounts kr names = some pairs)
    (hA : decodeAuth (cfg.genesisState authModuleName) = some A0)
    (hpack : packAccounts reg (pairs.map Prod.fst) = none) :
    addGenAccounts reg cfg (pairs.map Prod.fst) (pairs.map Prod.snd) =
      MergeOutcome.errReturn cfg GenError.accountPackError ∧
    New reg kr cfg names = none ∧
    (∀ accs2 : List BaseAccount, (∀ a ∈ accs2, a.pubKey.alg ∈ reg) →
      packAccounts reg accs2 = some (accs2.map PackedAccount.mk)) := by
  have herr : addGenAccounts reg cfg (pairs.map Prod.fst) (pairs.map Prod.snd) =
      MergeOutcome.errReturn cfg GenError.accountPackError := by
    unfold addGenAccounts
    rw [hA]
    simp only []
    rw [hpack]
  refine ⟨herr, ?_, packAccounts_all_supported reg⟩
  unfold New
  rw [hbuild]
  simp only []
  rw [herr]

/-- Witness for C4 (amended): alice with an unsupported key algorithm. -/
theorem packError_return_vs_New_witness :
    addGenAccounts regSecp cfgBase [accAliceBad] [balAlice] =
      MergeOutcome.errReturn cfgBase GenError.accountPackError ∧
    New regSecp krBad cfgBase ["alice"] = none ∧
    packAccounts regSecp [accAlice] = some [PackedAccount.mk accAlice] := by
  have h := packError_return_vs_New regSecp krBad cfgBase ["alice"]
    [(accAliceBad, balAlice)] authBase rfl rfl rfl
  exact ⟨h.1, h.2.1, h.2.2 [accAlice] (by decide)⟩

/-- Claim C10: a successful `New` always funds every requested genesis
account with the fixed amount `fundingAmount` (1,000,000,000,000) in each
of its two coin denominations; `New` takes no amount parameter, so the
amount cannot be chosen by the caller. -/
theorem new_fixed_funding (reg : Registry) (kr : Keyring) (cfg : Config)
    (names : List String) (cfg' : Config) (B0 : BankGenesisState)
    (hB : decodeBank (cfg.genesisState bankModuleName) = some B0)
    (hN : New reg kr cfg names = some cfg') :
    ∃ pairs, buildGenAccounts kr names = some pairs ∧
      decodeBank (cfg'.genesisState bankModuleName) =
        some { B0 with balances := B0.balances ++ pairs.map Prod.snd } ∧
      ∀ p ∈ pairs, p.2.coins.length = 2 ∧ ∀ c ∈ p.2.coins, c.amount = fundingAmount := by
  unfold New at hN
  split at hN
  · exact absurd hN (by simp)
  next pairs hpairs =>
    split at hN
    next cfg2 hok =>
      obtain ⟨A0, B0', packed, hA', hB', hp', hauth', hbank', hframe⟩ :=
        addGenAccounts_ok_inv reg cfg (pairs.map Prod.fst) (pairs.map Prod.snd) cfg2 hok
      cases hN
      rw [hB] at hB'
      cases hB'
      refine ⟨pairs, hpairs, hbank', ?_⟩
      intro p hp
      obtain ⟨n, hn, hsome⟩ := buildGenAccounts_mem kr names pairs hpairs p hp
      obtain ⟨info, hkr, hacc, hbal⟩ :=
        newGenAccout_inv kr n fundingAmount p.1 p.2 (by decide) hsome
      rw [hbal]
      cases hlt : denomLt (n ++ "token") stakeDenom with
      | true => simp [hlt]
      | false => simp [hlt]
    next c e hmerge => exact absurd hN (by simp)
    next m hmerge => exact absurd hN (by simp)

/-- Witness for C10: `New` on name `"alice"` over the non-trivial base
configuration. -/
theorem new_fixed_funding_witness :
    ∃ pairs, buildGenAccounts krA ["alice"] = some pairs ∧
      decodeBank (cfgMergedW.genesisState bankModuleName) =
        some { bankBase with balances := bankBase.balances ++ pairs.map Prod.snd } ∧
      ∀ p ∈ pairs, p.2.coins.length = 2 ∧ ∀ c ∈ p.2.coins, c.amount = fundingAmount :=
  new_fixed_funding regSecp krA cfgBase ["alice"] cfgMergedW bankBase rfl rfl

end Chihuahua
